import Mathlib

/-!
Shallow embedding of `app.py` from the watsdabird-backend repository:
a Flask service exposing `POST /predict`, which validates an uploaded
audio file, saves it, runs an inference pipeline
(load → window split → mel-spectrogram → resize → min-max normalize →
model forward pass → probability averaging → arg-max → label mapping),
deletes the temporary file, and serializes the result.

Python strings are modelled as `List Char`; floating point values of the
numerical pipeline are modelled as `ℚ`; external library calls
(`AudioUtil.open`/`split`, `AudioUtil.melspectrogram`, `tf.image.resize`,
`model.predict`, `os.remove`) are abstract parameters of the embedding,
collected in an environment record, while every line of the repository's
own logic is translated verbatim.
-/

namespace App

/-- `ALLOWED_EXTENSIONS = {'wav', 'mp3', 'flac', 'ogg'}` (app.py line 14). -/
def ALLOWED_EXTENSIONS : List String := ["wav", "mp3", "flac", "ogg"]

/-- `CLASS_MAP` (app.py lines 22-27): the fixed class-index → name table. -/
def CLASS_MAP : Nat → Option String
  | 0 => some "AtlanticCanary"
  | 1 => some "Sooty-headedBulbul"
  | 2 => some "ZebraDove"
  | 3 => some "MoustachedBabbler"
  | _ => none

/-- The suffix of `s` that follows its last `'.'`, or `none` when `s` has no
`'.'`.  This models `filename.rsplit('.', 1)[1]` in the guarded position of
`allowed_file` (the guard `'.' in filename` ensures the index is in range). -/
def extAfterLastDot : List Char → Option (List Char)
  | [] => none
  | c :: rest =>
    match extAfterLastDot rest with
    | some e => some e
    | none => if c = '.' then some rest else none

/-- `allowed_file` (app.py lines 43-44):
`'.' in filename and filename.rsplit('.', 1)[1].lower() in ALLOWED_EXTENSIONS`.
`str.lower` is modelled by `Char.toLower` on each character. -/
def allowed_file (filename : List Char) : Bool :=
  filename.contains '.' &&
    (match extAfterLastDot filename with
     | some e => ALLOWED_EXTENSIONS.contains (String.mk (e.map Char.toLower))
     | none => false)

/-- Minimum of a flattened array, modelling `np.ndarray.min()` / `spec.min()`
on a non-empty array (`[]` is junk, never produced by the pipeline). -/
def listMin : List ℚ → ℚ
  | [] => 0
  | [x] => x
  | x :: y :: t => min x (listMin (y :: t))

/-- Maximum of a flattened array, modelling `np.ndarray.max()` / `spec.max()`. -/
def listMax : List ℚ → ℚ
  | [] => 0
  | [x] => x
  | x :: y :: t => max x (listMax (y :: t))

/-- The `1e-8` guard of `preprocess_segment` (app.py line 53). -/
def eps8 : ℚ := 1 / 100000000

/-- The min-max normalization step of `preprocess_segment` (app.py line 53):
`(spec - spec.min()) / (spec.max() - spec.min() + 1e-8)`, element-wise on the
flattened array. -/
def minmaxNormalize (xs : List ℚ) : List ℚ :=
  xs.map (fun x => (x - listMin xs) / (listMax xs - listMin xs + eps8))

/-- `preprocess_segment` (app.py lines 50-54).  `AudioUtil.melspectrogram` and
`tf.image.resize` are external library calls, taken as abstract functions on
flattened arrays; the min-max normalization is the repository's own
arithmetic. -/
def preprocess_segment (mel resize : List ℚ → List ℚ)
    (segment_audio : List ℚ) : List ℚ :=
  minmaxNormalize (resize (mel segment_audio))

/-- Element-wise sum of a batch of equal-length rows (`[]` gives `[]`). -/
def sumVecs : List (List ℚ) → List ℚ
  | [] => []
  | [v] => v
  | v :: w :: t => List.zipWith (· + ·) v (sumVecs (w :: t))

/-- `preds.mean(axis=0)` (app.py line 72): element-wise mean of a batch of
equal-length probability rows. -/
def meanVecs (rows : List (List ℚ)) : List ℚ :=
  (sumVecs rows).map (fun x => x / (rows.length : ℚ))

/-- `int(np.argmax(v))` (app.py line 73): numpy's arg-max, which documents
first-occurrence tie-breaking — it keeps the current best unless a strictly
larger value appears (`[]` is junk, never reached). -/
def npArgmax : List ℚ → Nat
  | [] => 0
  | [_] => 0
  | x :: y :: t =>
    if x < (y :: t).getD (npArgmax (y :: t)) 0 then npArgmax (y :: t) + 1 else 0

/-- Rounding of a rational to the nearest integer with ties to even: the
rounding mode of Python's built-in `round`. -/
def roundHalfEven (q : ℚ) : ℤ :=
  if q - ⌊q⌋ < 1 / 2 then ⌊q⌋
  else if 1 / 2 < q - ⌊q⌋ then ⌊q⌋ + 1
  else if ⌊q⌋ % 2 = 0 then ⌊q⌋ else ⌊q⌋ + 1

/-- `round(p, 4)` (app.py line 108): round to 4 decimal places. -/
def round4 (q : ℚ) : ℚ := (roundHalfEven (q * 10000) : ℚ) / 10000

/-- `CLASS_MAP.get(i, f'Class i')` (app.py lines 106 and 108): the class
name from the fixed table, or the generic fallback label outside it. -/
def classLabel (i : Nat) : String :=
  match CLASS_MAP i with
  | some s => s
  | none => "Class " ++ toString i

/-- Observable side effects of one `/predict` request: saving the upload,
the pipeline stages, and deleting the upload. -/
inductive Step where
  | save
  | openAudio
  | splitAudio
  | spectrogram
  | modelCall
  | removeFile
  deriving DecidableEq

/-- The external world of one request.  `openSegs` is the combined result of
`AudioUtil.open` + `AudioUtil.split` on the saved file: `.error msg` when
either raises an exception with message `msg`, `.ok segments` otherwise, each
segment a waveform.  `mel`, `resize` and `model` are the abstract
mel-spectrogram, `tf.image.resize` and per-row `model.predict` functions.
`removeErr = some msg` means `os.remove` on the saved path raises
`OSError(msg)`; `none` means it succeeds. -/
structure Env where
  openSegs : Except String (List (List ℚ))
  mel : List ℚ → List ℚ
  resize : List ℚ → List ℚ
  model : List ℚ → List ℚ
  removeErr : Option String

/-- `predict_file` (app.py lines 62-74), together with the trace of pipeline
steps it performs.  `model.predict` on the stacked batch is modelled row-wise
by `E.model`. -/
def predict_file (E : Env) : Except String (List ℚ × Nat) × List Step :=
  match E.openSegs with
  | .error e => (.error e, [Step.openAudio])
  | .ok segments =>
    if segments = [] then
      (.error "No valid audio segments found.",
        [Step.openAudio, Step.splitAudio])
    else
      let specs := segments.map (preprocess_segment E.mel E.resize)
      let preds := specs.map E.model
      let avg_probs := meanVecs preds
      (.ok (avg_probs, npArgmax avg_probs),
        [Step.openAudio, Step.splitAudio, Step.spectrogram, Step.modelCall])

/-- An uploaded multipart file as the handler sees it: its client-supplied
filename (`file.filename`). -/
structure ReqFile where
  filename : List Char

/-- A `/predict` request: `file?` is the `'file'` entry of `request.files`,
`none` when the field is absent. -/
structure Request where
  file? : Option ReqFile

/-- A serialized JSON response body: an error object, or a success object
holding the prediction label and the label → rounded-probability mapping
(kept as the association list built by the dict comprehension of app.py
lines 107-110). -/
inductive Body where
  | err (msg : String)
  | success (prediction : String) (probabilities : List (String × ℚ))
  deriving DecidableEq

/-- A Flask response: HTTP status code plus JSON body. -/
structure Response where
  status : Nat
  body : Body
  deriving DecidableEq

/-- The `POST /predict` handler (app.py lines 87-115), returning the response
and the trace of side effects.  Flask `FileStorage` truthiness in
`if file and allowed_file(...)` is `bool(file.filename)`, modelled by
`!file.filename.isEmpty`.  `os.remove` sits between inference and the success
return inside the same `try`, so an `OSError` there is also caught by the
`except` clause. -/
def predict (E : Env) (req : Request) : Response × List Step :=
  match req.file? with
  | none => (⟨400, .err "No file part in the request"⟩, [])
  | some file =>
    if file.filename = [] then (⟨400, .err "No selected file"⟩, [])
    else if !file.filename.isEmpty && allowed_file file.filename then
      match predict_file E with
      | (.ok (probs, pred_idx), trace) =>
        match E.removeErr with
        | none =>
          (⟨200, .success (classLabel pred_idx)
              (probs.enum.map (fun ip => (classLabel ip.1, round4 ip.2)))⟩,
            Step.save :: trace ++ [Step.removeFile])
        | some msg =>
          (⟨500, .err ("Inference failed: " ++ msg)⟩, Step.save :: trace)
      | (.error e, trace) =>
        (⟨500, .err ("Inference failed: " ++ e)⟩, Step.save :: trace)
    else (⟨400, .err "Unsupported file extension"⟩, [])

/-- After the handler returns, the temporary upload still exists on disk iff
it was saved and never removed (the handler saves at most once, to a single
path, and only removes that path). -/
def savedFileRemains (trace : List Step) : Bool :=
  decide (Step.save ∈ trace) && !decide (Step.removeFile ∈ trace)

/-- A concrete environment for witnesses: one segment, a model returning a
fixed distribution, `os.remove` succeeding. -/
def envOk : Env :=
  { openSegs := .ok [[0]]
  , mel := id
  , resize := id
  , model := fun _ => [0, 1, 0, 0]
  , removeErr := none }

/-- A concrete environment whose pipeline raises while opening the audio. -/
def envBoom : Env :=
  { openSegs := .error "boom"
  , mel := id
  , resize := id
  , model := fun _ => []
  , removeErr := none }

/-- A concrete environment where splitting yields no segments. -/
def envEmpty : Env :=
  { openSegs := .ok []
  , mel := id
  , resize := id
  , model := fun _ => []
  , removeErr := none }

/-- A concrete environment where inference succeeds but `os.remove` raises. -/
def envRmFail : Env :=
  { openSegs := .ok [[0]]
  , mel := id
  , resize := id
  , model := fun _ => [0, 1, 0, 0]
  , removeErr := some "Permission denied" }

example : allowed_file "song.wav".data = true := by decide

example : allowed_file "song.WAV".data = true := by decide

example : allowed_file "song.Mp3".data = true := by decide

example : allowed_file "song".data = false := by decide

example : allowed_file "a.b.ogg".data = true := by decide

example : allowed_file "a.ogg.b".data = false := by decide

example : allowed_file "".data = false := by decide

example : allowed_file ".wav".data = true := by decide

/-- `extAfterLastDot` returns `none` exactly on dot-free strings. -/
theorem extAfterLastDot_eq_none {s : List Char} :
    extAfterLastDot s = none ↔ '.' ∉ s := by
  induction s with
  | nil => simp [extAfterLastDot]
  | cons c rest ih =>
    rw [List.mem_cons, not_or]
    show (match extAfterLastDot rest with
          | some e => some e
          | none => if c = '.' then some rest else none) = none ↔ _
    cases h : extAfterLastDot rest with
    | some e =>
      constructor
      · intro hco; exact absurd hco (by simp)
      · rintro ⟨-, hmem⟩
        rw [ih.mpr hmem] at h
        exact Option.noConfusion h
    | none =>
      by_cases hc : c = '.'
      · rw [if_pos hc]
        constructor
        · intro hco; exact absurd hco (by simp)
        · rintro ⟨hne, -⟩; exact absurd hc.symm hne
      · rw [if_neg hc]
        exact ⟨fun _ => ⟨fun hh => hc hh.symm, ih.mp h⟩, fun _ => rfl⟩

/-- Appending a dot-free suffix after a literal `'.'` makes `extAfterLastDot`
return exactly that suffix. -/
theorem extAfterLastDot_append (pre e : List Char) (hnd : '.' ∉ e) :
    extAfterLastDot (pre ++ '.' :: e) = some e := by
  induction pre with
  | nil =>
    show (match extAfterLastDot e with
          | some e' => some e'
          | none => if ('.' : Char) = '.' then some e else none) = some e
    rw [extAfterLastDot_eq_none.mpr hnd]
    simp
  | cons c pre ih =>
    show (match extAfterLastDot (pre ++ '.' :: e) with
          | some e' => some e'
          | none => if c = '.' then some (pre ++ '.' :: e) else none) = some e
    rw [ih]

/-- `extAfterLastDot s = some e` exactly when `e` is the dot-free suffix of `s`
after some `'.'`, i.e. `s = pre ++ '.' :: e` with no `'.'` in `e`. -/
theorem extAfterLastDot_eq_some {s e : List Char} :
    extAfterLastDot s = some e ↔ ∃ pre, s = pre ++ '.' :: e ∧ '.' ∉ e := by
  constructor
  · intro h
    induction s with
    | nil => simp [extAfterLastDot] at h
    | cons c rest ih =>
      have h' : (match extAfterLastDot rest with
          | some e' => some e'
          | none => if c = '.' then some rest else none) = some e := h
      cases hr : extAfterLastDot rest with
      | some e' =>
        rw [hr] at h'
        obtain rfl : e' = e := Option.some.inj h'
        obtain ⟨pre, hpre, hnd⟩ := ih hr
        exact ⟨c :: pre, by simp [hpre], hnd⟩
      | none =>
        rw [hr] at h'
        by_cases hc : c = '.'
        · rw [if_pos hc] at h'
          obtain rfl : rest = e := Option.some.inj h'
          exact ⟨[], by simp [hc], extAfterLastDot_eq_none.mp hr⟩
        · rw [if_neg hc] at h'
          exact absurd h' (by simp)
  · rintro ⟨pre, rfl, hnd⟩
    exact extAfterLastDot_append pre e hnd

theorem listMin_le {xs : List ℚ} {x : ℚ} (hx : x ∈ xs) : listMin xs ≤ x := by
  induction xs with
  | nil => cases hx
  | cons a t ih =>
    cases t with
    | nil =>
      rcases List.mem_cons.mp hx with rfl | h
      · exact le_refl _
      · cases h
    | cons b t' =>
      rcases List.mem_cons.mp hx with rfl | h
      · exact min_le_left _ _
      · exact le_trans (min_le_right _ _) (ih h)

theorem le_listMax {xs : List ℚ} {x : ℚ} (hx : x ∈ xs) : x ≤ listMax xs := by
  induction xs with
  | nil => cases hx
  | cons a t ih =>
    cases t with
    | nil =>
      rcases List.mem_cons.mp hx with rfl | h
      · exact le_refl _
      · cases h
    | cons b t' =>
      rcases List.mem_cons.mp hx with rfl | h
      · exact le_max_left _ _
      · exact le_trans (ih h) (le_max_right _ _)

theorem listMin_mem {xs : List ℚ} (h : xs ≠ []) : listMin xs ∈ xs := by
  induction xs with
  | nil => exact absurd rfl h
  | cons a t ih =>
    cases t with
    | nil => exact List.mem_singleton.mpr rfl
    | cons b t' =>
      rcases le_total a (listMin (b :: t')) with hle | hle
      · have he : listMin (a :: b :: t') = a := min_eq_left hle
        rw [he]; exact List.mem_cons_self _ _
      · have he : listMin (a :: b :: t') = listMin (b :: t') := min_eq_right hle
        rw [he]
        exact List.mem_cons_of_mem _ (ih (by simp))

theorem listMax_mem {xs : List ℚ} (h : xs ≠ []) : listMax xs ∈ xs := by
  induction xs with
  | nil => exact absurd rfl h
  | cons a t ih =>
    cases t with
    | nil => exact List.mem_singleton.mpr rfl
    | cons b t' =>
      rcases le_total (listMax (b :: t')) a with hle | hle
      · have he : listMax (a :: b :: t') = a := max_eq_left hle
        rw [he]; exact List.mem_cons_self _ _
      · have he : listMax (a :: b :: t') = listMax (b :: t') := max_eq_right hle
        rw [he]
        exact List.mem_cons_of_mem _ (ih (by simp))

/-- `listMin` is the unique member that bounds the list from below. -/
theorem listMin_eq_of {xs : List ℚ} {y : ℚ} (hy : y ∈ xs)
    (hlb : ∀ x ∈ xs, y ≤ x) : listMin xs = y :=
  le_antisymm (listMin_le hy) (hlb _ (listMin_mem (List.ne_nil_of_mem hy)))

/-- `listMax` is the unique member that bounds the list from above. -/
theorem listMax_eq_of {xs : List ℚ} {y : ℚ} (hy : y ∈ xs)
    (hub : ∀ x ∈ xs, x ≤ y) : listMax xs = y :=
  le_antisymm (hub _ (listMax_mem (List.ne_nil_of_mem hy))) (le_listMax hy)

example : npArgmax [1, 3, 3, 2] = 1 := by decide

example : npArgmax [5, 3, 5] = 0 := by decide

example : minmaxNormalize [2, 2] = [0, 0] := by
  norm_num [minmaxNormalize, listMin, listMax, eps8]

example : meanVecs [[1, 2], [3, 4]] = [2, 3] := by
  norm_num [meanVecs, sumVecs]

/-- `npArgmax` returns a valid index attaining the maximum, strictly larger
than every value before it: the lowest index attaining the maximum. -/
theorem npArgmax_spec (xs : List ℚ) (h : xs ≠ []) :
    npArgmax xs < xs.length
    ∧ (∀ j, j < xs.length → xs.getD j 0 ≤ xs.getD (npArgmax xs) 0)
    ∧ (∀ j, j < npArgmax xs → xs.getD j 0 < xs.getD (npArgmax xs) 0) := by
  induction xs with
  | nil => exact absurd rfl h
  | cons x t ih =>
    cases t with
    | nil =>
      refine ⟨Nat.zero_lt_one, ?_, ?_⟩
      · intro j hj
        cases j with
        | zero => exact le_refl _
        | succ j' => simp at hj
      · intro j hj
        exact absurd hj (Nat.not_lt_zero j)
    | cons y t' =>
      obtain ⟨ihlen, ihmax, ihfst⟩ := ih (by simp)
      by_cases hlt : x < (y :: t').getD (npArgmax (y :: t')) 0
      · have he : npArgmax (x :: y :: t') = npArgmax (y :: t') + 1 :=
          if_pos hlt
        rw [he]
        refine ⟨Nat.succ_lt_succ ihlen, ?_, ?_⟩
        · intro j hj
          cases j with
          | zero => exact le_of_lt hlt
          | succ j' =>
            rw [List.getD_cons_succ, List.getD_cons_succ]
            exact ihmax j' (Nat.lt_of_succ_lt_succ hj)
        · intro j hj
          cases j with
          | zero => exact hlt
          | succ j' =>
            rw [List.getD_cons_succ, List.getD_cons_succ]
            exact ihfst j' (Nat.lt_of_succ_lt_succ hj)
      · have he : npArgmax (x :: y :: t') = 0 := if_neg hlt
        rw [he]
        refine ⟨Nat.succ_pos _, ?_, ?_⟩
        · intro j hj
          cases j with
          | zero => exact le_refl _
          | succ j' =>
            rw [List.getD_cons_succ]
            exact le_trans (ihmax j' (Nat.lt_of_succ_lt_succ hj))
              (not_lt.mp hlt)
        · intro j hj
          exact absurd hj (Nat.not_lt_zero j)

theorem zipWith_add_map (v : List ℚ) (f : ℚ → ℚ) :
    List.zipWith (· + ·) v (v.map f) = v.map (fun x => x + f x) := by
  induction v with
  | nil => rfl
  | cons a t ih => simp only [List.map_cons, List.zipWith_cons_cons, ih]

theorem sumVecs_replicate (n : Nat) (v : List ℚ) :
    sumVecs (List.replicate (n + 1) v) = v.map (fun x => ((n : ℚ) + 1) * x) := by
  induction n with
  | zero =>
    show sumVecs [v] = _
    show v = _
    simp
  | succ n ih =>
    rw [List.replicate_succ, List.replicate_succ]
    show List.zipWith (· + ·) v (sumVecs (v :: List.replicate n v)) = _
    rw [← List.replicate_succ, ih, zipWith_add_map]
    refine List.map_congr_left (fun x _ => ?_)
    push_cast
    ring

theorem meanVecs_replicate (n : Nat) (v : List ℚ) (hn : 0 < n) :
    meanVecs (List.replicate n v) = v := by
  obtain ⟨m, rfl⟩ : ∃ m, n = m + 1 := ⟨n - 1, (Nat.succ_pred_eq_of_pos hn).symm⟩
  unfold meanVecs
  rw [sumVecs_replicate, List.length_replicate, List.map_map]
  have hne : ((m : ℚ) + 1) ≠ 0 := by positivity
  have hid : ∀ x ∈ v, ((fun x => x / ((m + 1 : Nat) : ℚ)) ∘
      fun x => ((m : ℚ) + 1) * x) x = id x := by
    intro x _
    simp only [Function.comp_apply, id_eq]
    push_cast
    field_simp
  rw [List.map_congr_left hid, List.map_id]

/-- **C2.** `allowed_file` returns `true` iff the filename contains a `'.'`
and the lowercased suffix after the last `'.'` is one of wav/mp3/flac/ogg;
in particular every filename with no extension (no `'.'`) is rejected. -/
theorem c2_allowed_file_iff (filename : List Char) :
    (allowed_file filename = true ↔
      ∃ pre e, filename = pre ++ '.' :: e ∧ '.' ∉ e ∧
        String.mk (e.map Char.toLower) ∈ ALLOWED_EXTENSIONS)
    ∧ ('.' ∉ filename → allowed_file filename = false) := by
  constructor
  · constructor
    · intro h
      unfold allowed_file at h
      rw [Bool.and_eq_true] at h
      obtain ⟨hdot, hmatch⟩ := h
      cases hext : extAfterLastDot filename with
      | none =>
        rw [hext] at hmatch
        exact absurd hmatch (by simp)
      | some e =>
        obtain ⟨pre, hpre, hnd⟩ := extAfterLastDot_eq_some.mp hext
        rw [hext] at hmatch
        exact ⟨pre, e, hpre, hnd, List.elem_iff.mp hmatch⟩
    · rintro ⟨pre, e, rfl, hnd, hmem⟩
      unfold allowed_file
      rw [extAfterLastDot_append pre e hnd]
      rw [Bool.and_eq_true]
      exact ⟨List.elem_iff.mpr (List.mem_append_right _ (List.mem_cons_self _ _)),
         List.elem_iff.mpr hmem⟩
  · intro hnd
    unfold allowed_file
    rw [extAfterLastDot_eq_none.mpr hnd]
    exact Bool.and_false _

/-- Witness for C2 at concrete filenames. -/
theorem c2_allowed_file_iff_witness :
    allowed_file "song.wav".data = true ∧ allowed_file "song".data = false :=
  ⟨(c2_allowed_file_iff "song.wav".data).1.mpr
      ⟨"song".data, "wav".data, by decide, by decide, by decide⟩,
   (c2_allowed_file_iff "song".data).2 (by decide)⟩

/-- **C9.** `allowed_file` is case-insensitive in the extension: any filename
whose extension lowercases to an allowed extension is accepted. -/
theorem c9_allowed_file_case_insensitive (pre e : List Char) (hnd : '.' ∉ e)
    (hmem : String.mk (e.map Char.toLower) ∈ ALLOWED_EXTENSIONS) :
    allowed_file (pre ++ '.' :: e) = true := by
  unfold allowed_file
  rw [extAfterLastDot_append pre e hnd]
  rw [Bool.and_eq_true]
  exact ⟨List.elem_iff.mpr (List.mem_append_right _ (List.mem_cons_self _ _)),
     List.elem_iff.mpr hmem⟩

/-- Witness for C9: upper- and mixed-case extensions are accepted. -/
theorem c9_allowed_file_case_insensitive_witness :
    allowed_file "song.WAV".data = true ∧ allowed_file "song.Mp3".data = true :=
  ⟨c9_allowed_file_case_insensitive "song".data "WAV".data (by decide) (by decide),
   c9_allowed_file_case_insensitive "song".data "Mp3".data (by decide) (by decide)⟩

/-- **C4.** The preprocessing normalization is
`(x - min xs) / (max xs - min xs + 1e-8)` element-wise; on a non-constant
input the output has minimum exactly 0 and maximum
`(max-min)/(max-min+1e-8)`, which is within `1e-8/(max-min)` of 1 and
strictly below 1; on a constant input every output value is 0. -/
theorem c4_minmax_normalization (xs : List ℚ) :
    minmaxNormalize xs
      = xs.map (fun x => (x - listMin xs) / (listMax xs - listMin xs + eps8))
    ∧ (∀ c, (∀ x ∈ xs, x = c) → ∀ y ∈ minmaxNormalize xs, y = 0)
    ∧ (listMin xs < listMax xs →
        listMin (minmaxNormalize xs) = 0
        ∧ listMax (minmaxNormalize xs)
            = (listMax xs - listMin xs) / (listMax xs - listMin xs + eps8)
        ∧ 1 - eps8 / (listMax xs - listMin xs) ≤ listMax (minmaxNormalize xs)
        ∧ listMax (minmaxNormalize xs) < 1) := by
  refine ⟨rfl, ?_, ?_⟩
  · intro c hc y hy
    obtain ⟨x, hx, rfl⟩ := List.mem_map.mp hy
    have hmc : listMin xs = c := hc _ (listMin_mem (List.ne_nil_of_mem hx))
    rw [hc x hx, hmc, sub_self, zero_div]
  · intro hlt
    have hne : xs ≠ [] := by
      rintro rfl
      rw [show listMin ([] : List ℚ) = 0 from rfl,
        show listMax ([] : List ℚ) = 0 from rfl] at hlt
      exact absurd hlt (lt_irrefl 0)
    have heps : (0:ℚ) < eps8 := by norm_num [eps8]
    have hd : (0:ℚ) < listMax xs - listMin xs + eps8 := by linarith
    have hmin0 : listMin (minmaxNormalize xs) = 0 := by
      apply listMin_eq_of
      · refine List.mem_map.mpr ⟨listMin xs, listMin_mem hne, ?_⟩
        rw [sub_self, zero_div]
      · intro y hy
        obtain ⟨x, hx, rfl⟩ := List.mem_map.mp hy
        exact div_nonneg (by linarith [listMin_le hx]) (le_of_lt hd)
    have hmaxeq : listMax (minmaxNormalize xs)
        = (listMax xs - listMin xs) / (listMax xs - listMin xs + eps8) := by
      apply listMax_eq_of
      · exact List.mem_map.mpr ⟨listMax xs, listMax_mem hne, rfl⟩
      · intro y hy
        obtain ⟨x, hx, rfl⟩ := List.mem_map.mp hy
        have hxle : x - listMin xs ≤ listMax xs - listMin xs :=
          sub_le_sub_right (le_listMax hx) _
        exact div_le_div_of_nonneg_right hxle (le_of_lt hd)
    have ha : (0:ℚ) < listMax xs - listMin xs := by linarith
    have hlb : 1 - eps8 / (listMax xs - listMin xs)
        ≤ (listMax xs - listMin xs) / (listMax xs - listMin xs + eps8) := by
      have h1 : 1 - eps8 / (listMax xs - listMin xs)
          = ((listMax xs - listMin xs) - eps8) / (listMax xs - listMin xs) := by
        field_simp
      rw [h1, div_le_div_iff₀ ha hd]
      nlinarith [sq_nonneg eps8]
    have hub : (listMax xs - listMin xs) / (listMax xs - listMin xs + eps8)
        < 1 := by
      rw [div_lt_one hd]
      linarith
    exact ⟨hmin0, hmaxeq, hmaxeq ▸ hlb, hmaxeq ▸ hub⟩

/-- Witness for C4 at the non-constant input `[1, 3]` and the constant input
`[2, 2]`. -/
theorem c4_minmax_normalization_witness :
    listMin (minmaxNormalize [1, 3]) = 0
    ∧ listMax (minmaxNormalize [1, 3]) < 1
    ∧ ((2:ℚ) ∈ ([2, 2] : List ℚ) → (0:ℚ) ∈ minmaxNormalize [2, 2]
        → (0:ℚ) = 0) :=
  ⟨((c4_minmax_normalization [1, 3]).2.2 (by decide)).1,
   ((c4_minmax_normalization [1, 3]).2.2 (by decide)).2.2.2,
   fun _ h0 => (c4_minmax_normalization [2, 2]).2.1 2 (by decide) 0 h0⟩

/-- **C5.** Element-wise averaging of `n ≥ 1` identical probability rows
returns that row unchanged, and the arg-max of an averaged vector is the
lowest index attaining its maximum. -/
theorem c5_aggregation (v : List ℚ) (n : Nat) (hn : 0 < n)
    (xs : List ℚ) (hxs : xs ≠ []) :
    meanVecs (List.replicate n v) = v
    ∧ npArgmax xs < xs.length
    ∧ (∀ j, j < xs.length → xs.getD j 0 ≤ xs.getD (npArgmax xs) 0)
    ∧ (∀ j, j < npArgmax xs → xs.getD j 0 < xs.getD (npArgmax xs) 0) := by
  obtain ⟨h1, h2, h3⟩ := npArgmax_spec xs hxs
  exact ⟨meanVecs_replicate n v hn, h1, h2, h3⟩

/-- Witness for C5: averaging three copies of a distribution returns it, and
the arg-max of a vector with a tied maximum is a valid (first) index. -/
theorem c5_aggregation_witness :
    meanVecs (List.replicate 3 [(1:ℚ)/2, 1/4, 1/4]) = [(1:ℚ)/2, 1/4, 1/4]
    ∧ npArgmax [(2:ℚ), 5, 5] < 3 :=
  ⟨(c5_aggregation [(1:ℚ)/2, 1/4, 1/4] 3 (by decide) [(2:ℚ), 5, 5]
      (by decide)).1,
   (c5_aggregation [(1:ℚ)/2, 1/4, 1/4] 3 (by decide) [(2:ℚ), 5, 5]
      (by decide)).2.1⟩

/-- Reduction of `predict` on a validated request (field present, non-empty
allowed filename): the handler saves the file and runs the pipeline. -/
theorem predict_validated (E : Env) (req : Request) (f : ReqFile)
    (hf : req.file? = some f) (hne : f.filename ≠ [])
    (ha : allowed_file f.filename = true) :
    predict E req =
      (match predict_file E with
       | (.ok (probs, pred_idx), trace) =>
         match E.removeErr with
         | none =>
           (⟨200, .success (classLabel pred_idx)
               (probs.enum.map (fun ip => (classLabel ip.1, round4 ip.2)))⟩,
             Step.save :: trace ++ [Step.removeFile])
         | some msg =>
           (⟨500, .err ("Inference failed: " ++ msg)⟩, Step.save :: trace)
       | (.error e, trace) =>
         (⟨500, .err ("Inference failed: " ++ e)⟩, Step.save :: trace)) := by
  have hie : f.filename.isEmpty = false := by
    cases hfn : f.filename with
    | nil => exact absurd hfn hne
    | cons c t => rfl
  simp only [predict, hf, if_neg hne, hie, ha, Bool.not_false, Bool.and_self]
  rfl

/-- Reduction of `predict` on a validated request with successful pipeline
and successful `os.remove`. -/
theorem predict_success (E : Env) (req : Request) (f : ReqFile)
    (hf : req.file? = some f) (hne : f.filename ≠ [])
    (ha : allowed_file f.filename = true)
    (probs : List ℚ) (pred_idx : Nat) (trace : List Step)
    (hpf : predict_file E = (.ok (probs, pred_idx), trace))
    (hrm : E.removeErr = none) :
    predict E req =
      (⟨200, .success (classLabel pred_idx)
          (probs.enum.map (fun ip => (classLabel ip.1, round4 ip.2)))⟩,
        Step.save :: trace ++ [Step.removeFile]) := by
  rw [predict_validated E req f hf hne ha, hpf, hrm]

/-- Reduction of `predict` when the pipeline raises. -/
theorem predict_pipeline_error (E : Env) (req : Request) (f : ReqFile)
    (hf : req.file? = some f) (hne : f.filename ≠ [])
    (ha : allowed_file f.filename = true)
    (e : String) (trace : List Step)
    (hpf : predict_file E = (.error e, trace)) :
    predict E req
      = (⟨500, .err ("Inference failed: " ++ e)⟩, Step.save :: trace) := by
  rw [predict_validated E req f hf hne ha, hpf]

/-- Reduction of `predict` when the pipeline succeeds but `os.remove`
raises: the exception is caught by the same `except` clause. -/
theorem predict_remove_error (E : Env) (req : Request) (f : ReqFile)
    (hf : req.file? = some f) (hne : f.filename ≠ [])
    (ha : allowed_file f.filename = true)
    (probs : List ℚ) (pred_idx : Nat) (trace : List Step)
    (hpf : predict_file E = (.ok (probs, pred_idx), trace))
    (msg : String) (hrm : E.removeErr = some msg) :
    predict E req
      = (⟨500, .err ("Inference failed: " ++ msg)⟩, Step.save :: trace) := by
  rw [predict_validated E req f hf hne ha, hpf, hrm]

theorem predict_file_envOk :
    predict_file envOk = (.ok ([0, 1, 0, 0], 1),
      [Step.openAudio, Step.splitAudio, Step.spectrogram, Step.modelCall]) := by
  have hArg : npArgmax [(0:ℚ), 1, 0, 0] = 1 := by decide
  simp [predict_file, envOk, meanVecs, sumVecs, hArg]

theorem predict_file_envRmFail :
    predict_file envRmFail = (.ok ([0, 1, 0, 0], 1),
      [Step.openAudio, Step.splitAudio, Step.spectrogram, Step.modelCall]) := by
  have hArg : npArgmax [(0:ℚ), 1, 0, 0] = 1 := by decide
  simp [predict_file, envRmFail, meanVecs, sumVecs, hArg]

/-- The pipeline trace never contains the save or remove steps: those belong
to the handler. -/
theorem predict_file_trace_clean (E : Env) :
    Step.save ∉ (predict_file E).2 ∧ Step.removeFile ∉ (predict_file E).2 := by
  cases ho : E.openSegs with
  | error e => simp [predict_file, ho]
  | ok segs =>
    by_cases hs : segs = [] <;> simp [predict_file, ho, hs]

/-- Inversion of a successful `predict_file`: the returned index is the
arg-max of the returned averaged vector. -/
theorem predict_file_ok_inv (E : Env) {probs : List ℚ} {pred_idx : Nat}
    {trace : List Step}
    (h : predict_file E = (.ok (probs, pred_idx), trace)) :
    pred_idx = npArgmax probs := by
  unfold predict_file at h
  split at h
  · exact absurd h (by simp)
  · split at h
    · exact absurd h (by simp)
    · simp only [Prod.mk.injEq, Except.ok.injEq] at h
      obtain ⟨⟨hp, hi⟩, -⟩ := h
      rw [← hi, ← hp]

/-- Entry `j` of the serialized probabilities association list. -/
theorem getD_enum_map (l : List ℚ) (g : Nat × ℚ → String × ℚ) (j : Nat)
    (hj : j < l.length) :
    (l.enum.map g).getD j ("", 0) = g (j, l.getD j 0) := by
  have hj1 : j < (l.enum.map g).length := by simpa using hj
  rw [List.getD_eq_getElem _ _ hj1, List.getD_eq_getElem _ _ hj]
  simp [List.getElem_map, List.getElem_enum]

/-- Outside the class table, the label falls back to the generic form. -/
theorem classLabel_ge4 (i : Nat) (hi : 4 ≤ i) :
    classLabel i = "Class " ++ toString i := by
  obtain ⟨n, rfl⟩ : ∃ n, i = n + 4 := ⟨i - 4, by omega⟩
  rfl

/-- **C3.** The validation rejections of `POST /predict`, in priority order:
400 "No file part in the request" whenever the `file` field is absent;
otherwise 400 "No selected file" whenever its filename is empty; otherwise
400 "Unsupported file extension" whenever `allowed_file` rejects the
(non-empty) filename. -/
theorem c3_validation_order (E : Env) (req : Request) :
    (req.file? = none →
      predict E req = (⟨400, .err "No file part in the request"⟩, []))
    ∧ (∀ f, req.file? = some f → f.filename = [] →
      predict E req = (⟨400, .err "No selected file"⟩, []))
    ∧ (∀ f, req.file? = some f → f.filename ≠ [] →
      allowed_file f.filename = false →
      predict E req = (⟨400, .err "Unsupported file extension"⟩, [])) := by
  refine ⟨?_, ?_, ?_⟩
  · intro h
    simp [predict, h]
  · intro f hf he
    simp [predict, hf, he]
  · intro f hf hne hna
    simp [predict, hf, hne, hna]

/-- Witness for C3: the three rejections at concrete requests. -/
theorem c3_validation_order_witness :
    predict envOk { file? := none }
      = (⟨400, .err "No file part in the request"⟩, [])
    ∧ predict envOk { file? := some ⟨[]⟩ }
      = (⟨400, .err "No selected file"⟩, [])
    ∧ predict envOk { file? := some ⟨"a.txt".data⟩ }
      = (⟨400, .err "Unsupported file extension"⟩, []) :=
  ⟨(c3_validation_order envOk { file? := none }).1 rfl,
   (c3_validation_order envOk { file? := some ⟨[]⟩ }).2.1 ⟨[]⟩ rfl rfl,
   (c3_validation_order envOk { file? := some ⟨"a.txt".data⟩ }).2.2
     ⟨"a.txt".data⟩ rfl (by decide) (by decide)⟩

/-- **C8.** Every 400 response of the handler has an empty effect trace: no
file is saved and no pipeline step runs. -/
theorem c8_validation_no_side_effects (E : Env) (req : Request)
    (h : (predict E req).1.status = 400) :
    (predict E req).2 = [] ∧ Step.save ∉ (predict E req).2 := by
  cases hreq : req.file? with
  | none => simp [predict, hreq]
  | some f =>
    by_cases he : f.filename = []
    · simp [predict, hreq, he]
    · by_cases ha : allowed_file f.filename
      · exfalso
        rw [predict_validated E req f hreq he ha] at h
        rcases hpf : predict_file E with ⟨res, trace⟩
        rw [hpf] at h
        rcases res with e | ⟨probs, idx⟩
        · simp at h
        · cases hrm : E.removeErr with
          | none => rw [hrm] at h; simp at h
          | some msg => rw [hrm] at h; simp at h
      · have ha' : allowed_file f.filename = false :=
          Bool.eq_false_iff.mpr ha
        simp [predict, hreq, he, ha']

/-- Witness for C8 at a rejected concrete request. -/
theorem c8_validation_no_side_effects_witness :
    (predict envOk { file? := some ⟨"a.txt".data⟩ }).2 = []
    ∧ Step.save ∉ (predict envOk { file? := some ⟨"a.txt".data⟩ }).2 :=
  c8_validation_no_side_effects envOk { file? := some ⟨"a.txt".data⟩ }
    (by decide)

/-- **C6.** When splitting yields no segments, `predict_file` raises
"No valid audio segments found." with no spectrogram or model step in its
trace, and the handler surfaces it as 500 "Inference failed: <message>". -/
theorem c6_no_segments (E : Env) (req : Request) (f : ReqFile)
    (hopen : E.openSegs = .ok [])
    (hf : req.file? = some f) (hne : f.filename ≠ [])
    (ha : allowed_file f.filename = true) :
    predict_file E = (.error "No valid audio segments found.",
      [Step.openAudio, Step.splitAudio])
    ∧ Step.spectrogram ∉ (predict_file E).2
    ∧ Step.modelCall ∉ (predict_file E).2
    ∧ predict E req
      = (⟨500, .err "Inference failed: No valid audio segments found."⟩,
         [Step.save, Step.openAudio, Step.splitAudio]) := by
  have hpf : predict_file E = (.error "No valid audio segments found.",
      [Step.openAudio, Step.splitAudio]) := by
    simp [predict_file, hopen]
  refine ⟨hpf, ?_, ?_, ?_⟩
  · rw [hpf]; decide
  · rw [hpf]; decide
  · rw [predict_pipeline_error E req f hf hne ha _ _ hpf]
    decide

/-- Witness for C6 at a concrete environment with no segments. -/
theorem c6_no_segments_witness :
    predict envEmpty { file? := some ⟨"a.wav".data⟩ }
      = (⟨500, .err "Inference failed: No valid audio segments found."⟩,
         [Step.save, Step.openAudio, Step.splitAudio]) :=
  (c6_no_segments envEmpty { file? := some ⟨"a.wav".data⟩ } ⟨"a.wav".data⟩
    rfl rfl (by decide) (by decide)).2.2.2

/-- **C7.** On a successful `/predict` response: status 200; the
probabilities list has exactly one entry per element of the returned
probability vector; entry `j` pairs `classLabel j` with the 4-decimal
rounding of the `j`-th probability; `classLabel` agrees with the fixed
class table on indices 0-3 and is the generic "Class i" label outside it;
and the prediction is the label of the arg-max index of the vector. -/
theorem c7_success_payload (E : Env) (req : Request) (f : ReqFile)
    (hf : req.file? = some f) (hne : f.filename ≠ [])
    (ha : allowed_file f.filename = true)
    (probs : List ℚ) (pred_idx : Nat) (trace : List Step)
    (hpf : predict_file E = (.ok (probs, pred_idx), trace))
    (hrm : E.removeErr = none) :
    (predict E req).1
      = ⟨200, .success (classLabel (npArgmax probs))
          (probs.enum.map (fun ip => (classLabel ip.1, round4 ip.2)))⟩
    ∧ (probs.enum.map (fun ip => (classLabel ip.1, round4 ip.2))).length
        = probs.length
    ∧ (∀ j, j < probs.length →
        (probs.enum.map (fun ip => (classLabel ip.1, round4 ip.2))).getD j
            ("", 0)
          = (classLabel j, round4 (probs.getD j 0)))
    ∧ classLabel 0 = "AtlanticCanary"
    ∧ classLabel 1 = "Sooty-headedBulbul"
    ∧ classLabel 2 = "ZebraDove"
    ∧ classLabel 3 = "MoustachedBabbler"
    ∧ (∀ i, 4 ≤ i → classLabel i = "Class " ++ toString i) := by
  have hidx := predict_file_ok_inv E hpf
  refine ⟨?_, by simp, ?_, rfl, rfl, rfl, rfl, classLabel_ge4⟩
  · rw [predict_success E req f hf hne ha probs pred_idx trace hpf hrm,
      ← hidx]
  · intro j hj
    exact getD_enum_map probs _ j hj

/-- Witness for C7 at a concrete successful request. -/
theorem c7_success_payload_witness :
    (predict envOk { file? := some ⟨"a.wav".data⟩ }).1
      = ⟨200, .success (classLabel (npArgmax [0, 1, 0, 0]))
          (([0, 1, 0, 0] : List ℚ).enum.map
            (fun ip => (classLabel ip.1, round4 ip.2)))⟩
    ∧ classLabel 5 = "Class " ++ toString 5 :=
  ⟨(c7_success_payload envOk { file? := some ⟨"a.wav".data⟩ }
      ⟨"a.wav".data⟩ rfl (by decide) (by decide) [0, 1, 0, 0] 1 _
      predict_file_envOk rfl).1,
   (c7_success_payload envOk { file? := some ⟨"a.wav".data⟩ }
      ⟨"a.wav".data⟩ rfl (by decide) (by decide) [0, 1, 0, 0] 1 _
      predict_file_envOk rfl).2.2.2.2.2.2.2 5 (by decide)⟩

/-- **C10.** When `predict_file` returns normally but `os.remove` raises,
the handler returns 500 "Inference failed: <message>" instead of the
computed prediction: the cleanup call is inside the same `try` scope as
inference. -/
theorem c10_remove_failure (E : Env) (req : Request) (f : ReqFile)
    (hf : req.file? = some f) (hne : f.filename ≠ [])
    (ha : allowed_file f.filename = true)
    (probs : List ℚ) (pred_idx : Nat) (trace : List Step)
    (hpf : predict_file E = (.ok (probs, pred_idx), trace))
    (msg : String) (hrm : E.removeErr = some msg) :
    predict E req
      = (⟨500, .err ("Inference failed: " ++ msg)⟩, Step.save :: trace)
    ∧ (predict E req).1.status ≠ 200 := by
  have h := predict_remove_error E req f hf hne ha probs pred_idx trace hpf
    msg hrm
  exact ⟨h, by rw [h]; simp⟩

/-- Witness for C10: a concrete request where inference succeeds but
`os.remove` raises, yielding 500 instead of the prediction. -/
theorem c10_remove_failure_witness :
    predict envRmFail { file? := some ⟨"a.wav".data⟩ }
      = (⟨500, .err ("Inference failed: " ++ "Permission denied")⟩,
         [Step.save, Step.openAudio, Step.splitAudio, Step.spectrogram,
          Step.modelCall]) :=
  (c10_remove_failure envRmFail { file? := some ⟨"a.wav".data⟩ }
    ⟨"a.wav".data⟩ rfl (by decide) (by decide) [0, 1, 0, 0] 1 _
    predict_file_envRmFail "Permission denied" rfl).1

/-- **C1 counterexample.** A request that passes validation (field present,
non-empty filename "a.wav", allowed extension) whose pipeline raises: the
handler returns 500 and the saved temporary file is never removed — it
still exists after the handler returns, contradicting the claim that the
file is always gone whether the pipeline succeeds or raises. -/
theorem c1_counterexample :
    allowed_file "a.wav".data = true
    ∧ predict envBoom { file? := some ⟨"a.wav".data⟩ }
        = (⟨500, .err "Inference failed: boom"⟩,
           [Step.save, Step.openAudio])
    ∧ savedFileRemains
        (predict envBoom { file? := some ⟨"a.wav".data⟩ }).2 = true := by
  have hpf : predict_file envBoom = (.error "boom", [Step.openAudio]) := by
    simp [predict_file, envBoom]
  have h2 := predict_pipeline_error envBoom { file? := some ⟨"a.wav".data⟩ }
    ⟨"a.wav".data⟩ rfl (by decide) (by decide) "boom" [Step.openAudio] hpf
  refine ⟨by decide, by rw [h2]; decide, ?_⟩
  rw [h2]
  decide

/-- **C1 (amended).** For every request that passes validation, the
temporary uploaded file no longer exists after the handler returns **iff
the pipeline succeeded and `os.remove` itself succeeded**; in particular,
when `predict_file` raises, the file remains on disk. -/
theorem c1_amended_cleanup (E : Env) (req : Request) (f : ReqFile)
    (hf : req.file? = some f) (hne : f.filename ≠ [])
    (ha : allowed_file f.filename = true) :
    savedFileRemains (predict E req).2 = false ↔
      ((∃ p, (predict_file E).1 = .ok p) ∧ E.removeErr = none) := by
  obtain ⟨hnsave, hnrm⟩ := predict_file_trace_clean E
  rcases hpf : predict_file E with ⟨res, trace⟩
  rw [hpf] at hnsave hnrm
  rcases res with e | ⟨probs, idx⟩
  · rw [predict_pipeline_error E req f hf hne ha e trace hpf]
    simp only [savedFileRemains]
    simp [hnrm]
  · cases hrm : E.removeErr with
    | none =>
      rw [predict_success E req f hf hne ha probs idx trace hpf hrm]
      simp [savedFileRemains]
    | some msg =>
      rw [predict_remove_error E req f hf hne ha probs idx trace hpf msg hrm]
      simp only [savedFileRemains]
      simp [hnrm, hrm]

/-- Witness for the amended C1: on a concrete successful request the file is
gone; on a concrete failing pipeline it remains. -/
theorem c1_amended_cleanup_witness :
    savedFileRemains
      (predict envOk { file? := some ⟨"a.wav".data⟩ }).2 = false
    ∧ savedFileRemains
      (predict envBoom { file? := some ⟨"b.mp3".data⟩ }).2 ≠ false :=
  ⟨(c1_amended_cleanup envOk { file? := some ⟨"a.wav".data⟩ }
      ⟨"a.wav".data⟩ rfl (by decide) (by decide)).mpr
      ⟨⟨([0, 1, 0, 0], 1), by rw [predict_file_envOk]⟩, rfl⟩,
   fun hcon =>
     absurd ((c1_amended_cleanup envBoom { file? := some ⟨"b.mp3".data⟩ }
       ⟨"b.mp3".data⟩ rfl (by decide) (by decide)).mp hcon).1
       (by simp [predict_file, envBoom])⟩

end App
